import Mathlib

/-!
Verification of the calibration-dataset builder
(`src/data/DAv2s_CPU/02-make_calib_list.py`).

The development embeds the pipeline of that script shallowly:

* filesystem paths are modelled as their Python `PurePath._cparts`
  component lists (`ImagePath := List String`); on POSIX, `pathlib`
  compares, hashes and deduplicates paths by exactly this component
  tuple (CPython 3.11 `pathlib.py`, `_cparts` / `__lt__` / `__eq__` /
  `__hash__`);
* Python `sorted` over paths is a sort with respect to the
  lexicographic order on component lists, where components (strings)
  compare by code points — both comparison algorithms are reproduced
  here as structurally recursive boolean functions;
* the PRNG of the `random` module is global mutable state that
  `random.seed` overwrites as a pure function of the seed;
  `random.sample` is CPython's selection-by-swapping pool algorithm,
  with a concrete LCG standing in for the Mersenne Twister (the spec
  leaves the generator's algorithm unconstrained);
* OpenCV decode/encode are modelled on a small algebra of file
  contents: decoding yields the stored raster, `cv2.imwrite` with
  `IMWRITE_JPEG_QUALITY` always produces a JPEG file at the given
  quality.
-/

/- ## Lexicographic boolean comparison (Python list and str ordering) -/

/-- Boolean strict lexicographic comparison of two lists given a strict
comparison of elements.  This is the algorithm with which Python
compares two lists or tuples (first differing position decides; a
proper prefix is smaller). -/
def lexLtB (lt : α → α → Bool) : List α → List α → Bool
  | [], [] => false
  | [], _ :: _ => true
  | _ :: _, [] => false
  | a :: as, b :: bs =>
    if lt a b then true else if lt b a then false else lexLtB lt as bs

/-- Helper: an asymmetric boolean relation is irreflexive. -/
theorem ltB_self_eq_false (lt : α → α → Bool)
    (hA : ∀ a b, lt a b = true → lt b a = false) (a : α) : lt a a = false := by
  cases h : lt a a
  · rfl
  · have h2 := hA a a h
    rw [h] at h2
    exact h2

/-- Lexicographic comparison is irreflexive. -/
theorem lexLtB_self (lt : α → α → Bool)
    (hA : ∀ a b, lt a b = true → lt b a = false) :
    ∀ l, lexLtB lt l l = false := by
  intro l
  induction l with
  | nil => rfl
  | cons a as ih => simp [lexLtB, ltB_self_eq_false lt hA a, ih]

/-- Lexicographic comparison is asymmetric. -/
theorem lexLtB_asymm (lt : α → α → Bool)
    (hA : ∀ a b, lt a b = true → lt b a = false) :
    ∀ l m, lexLtB lt l m = true → lexLtB lt m l = false := by
  intro l
  induction l with
  | nil =>
    intro m h
    cases m with
    | nil => simp [lexLtB] at h
    | cons b bs => rfl
  | cons a as ih =>
    intro m h
    cases m with
    | nil => simp [lexLtB] at h
    | cons b bs =>
      simp only [lexLtB] at h ⊢
      cases hab : lt a b with
      | true => simp [hA a b hab, hab]
      | false =>
        cases hba : lt b a with
        | true => rw [hab, hba] at h; simp at h
        | false =>
          rw [hab, hba] at h
          simp only [if_neg, Bool.false_eq_true, if_false] at h
          simp [hba, hab, ih bs h]

/-- Two lists that are lexicographically unrelated in both directions are
equal, provided the element comparison has the same property. -/
theorem lexLtB_conn (lt : α → α → Bool)
    (hC : ∀ a b, lt a b = false → lt b a = false → a = b) :
    ∀ l m, lexLtB lt l m = false → lexLtB lt m l = false → l = m := by
  intro l
  induction l with
  | nil =>
    intro m h1 _
    cases m with
    | nil => rfl
    | cons b bs => simp [lexLtB] at h1
  | cons a as ih =>
    intro m h1 h2
    cases m with
    | nil => simp [lexLtB] at h2
    | cons b bs =>
      simp only [lexLtB] at h1 h2
      cases hab : lt a b with
      | true => rw [hab] at h1; simp at h1
      | false =>
        cases hba : lt b a with
        | true => rw [hba] at h2; simp at h2
        | false =>
          rw [hab, hba] at h1 h2
          simp only [Bool.false_eq_true, if_false] at h1 h2
          rw [hC a b hab hba, ih bs h1 h2]

/-- Lexicographic comparison is transitive. -/
theorem lexLtB_trans (lt : α → α → Bool)
    (hA : ∀ a b, lt a b = true → lt b a = false)
    (hT : ∀ a b c, lt a b = true → lt b c = true → lt a c = true)
    (hC : ∀ a b, lt a b = false → lt b a = false → a = b) :
    ∀ l m n, lexLtB lt l m = true → lexLtB lt m n = true →
      lexLtB lt l n = true := by
  intro l
  induction l with
  | nil =>
    intro m n h1 h2
    cases m with
    | nil => simp [lexLtB] at h1
    | cons b bs =>
      cases n with
      | nil => simp [lexLtB] at h2
      | cons c cs => rfl
  | cons a as ih =>
    intro m n h1 h2
    cases m with
    | nil => simp [lexLtB] at h1
    | cons b bs =>
      cases n with
      | nil => simp [lexLtB] at h2
      | cons c cs =>
        simp only [lexLtB] at h1 h2 ⊢
        cases hab : lt a b with
        | true =>
          cases hbc : lt b c with
          | true => simp [hT a b c hab hbc]
          | false =>
            cases hcb : lt c b with
            | true => rw [hbc, hcb] at h2; simp at h2
            | false =>
              have hbceq := hC b c hbc hcb
              subst hbceq
              simp [hab]
        | false =>
          cases hba : lt b a with
          | true => rw [hab, hba] at h1; simp at h1
          | false =>
            have habeq := hC a b hab hba
            subst habeq
            simp [hab] at h1
            cases hac : lt a c with
            | true => simp [hac]
            | false =>
              cases hca : lt c a with
              | true => rw [hac, hca] at h2; simp at h2
              | false =>
                rw [hac, hca] at h2
                simp only [Bool.false_eq_true, if_false] at h2
                simp [hac, hca, ih bs cs h1 h2]

/-- Prepending a common list on the left does not change the relative
lexicographic order of two lists. -/
theorem lexLtB_append_left (lt : α → α → Bool)
    (hA : ∀ a b, lt a b = true → lt b a = false) (c : List α) (l m : List α) :
    lexLtB lt (c ++ l) (c ++ m) = lexLtB lt l m := by
  induction c with
  | nil => rfl
  | cons x xs ih => simp [lexLtB, ltB_self_eq_false lt hA x, ih]

/- ## Characters, strings and paths ordered the way Python orders them -/

/-- Strict comparison of characters by code point, as Python compares
the characters of two strings. -/
def charLtB (a b : Char) : Bool := a.toNat < b.toNat

theorem charLtB_asymm (a b : Char) (h : charLtB a b = true) :
    charLtB b a = false := by
  simp only [charLtB, decide_eq_true_eq] at h
  simp only [charLtB, decide_eq_false_iff_not]
  omega

theorem charLtB_trans (a b c : Char) (h1 : charLtB a b = true)
    (h2 : charLtB b c = true) : charLtB a c = true := by
  simp only [charLtB, decide_eq_true_eq] at h1 h2 ⊢
  omega

theorem charLtB_conn (a b : Char) (h1 : charLtB a b = false)
    (h2 : charLtB b a = false) : a = b := by
  simp only [charLtB, decide_eq_false_iff_not] at h1 h2
  apply Char.ext
  apply UInt32.ext
  have e1 : a.toNat = a.val.toNat := rfl
  have e2 : b.toNat = b.val.toNat := rfl
  omega

/-- Strict comparison of strings by code points: Python's `str` `<`. -/
def strLtB (a b : String) : Bool := lexLtB charLtB a.data b.data

theorem strLtB_asymm (a b : String) (h : strLtB a b = true) :
    strLtB b a = false := lexLtB_asymm charLtB charLtB_asymm _ _ h

theorem strLtB_trans (a b c : String) (h1 : strLtB a b = true)
    (h2 : strLtB b c = true) : strLtB a c = true :=
  lexLtB_trans charLtB charLtB_asymm charLtB_trans charLtB_conn _ _ _ h1 h2

theorem strLtB_conn (a b : String) (h1 : strLtB a b = false)
    (h2 : strLtB b a = false) : a = b := by
  have h3 := lexLtB_conn charLtB charLtB_conn a.data b.data h1 h2
  cases a
  cases b
  exact congrArg String.mk h3

/-- A filesystem path, modelled as the component tuple `_cparts` by which
CPython's `pathlib` compares, hashes and deduplicates `Path` objects on
POSIX.  An absolute path carries a leading `""` component so that
rendering with `/` separators restores the leading slash. -/
abbrev ImagePath := List String

/-- Strict comparison of two paths: Python compares `Path` objects by the
lexicographic order of their component tuples (`PurePath.__lt__` via
`_cparts`), with components compared as strings. -/
def pathLtB (p q : ImagePath) : Bool := lexLtB strLtB p q

theorem pathLtB_asymm (p q : ImagePath) (h : pathLtB p q = true) :
    pathLtB q p = false := lexLtB_asymm strLtB strLtB_asymm _ _ h

theorem pathLtB_trans (p q r : ImagePath) (h1 : pathLtB p q = true)
    (h2 : pathLtB q r = true) : pathLtB p r = true :=
  lexLtB_trans strLtB strLtB_asymm strLtB_trans strLtB_conn _ _ _ h1 h2

theorem pathLtB_conn (p q : ImagePath) (h1 : pathLtB p q = false)
    (h2 : pathLtB q p = false) : p = q :=
  lexLtB_conn strLtB strLtB_conn _ _ h1 h2

/-- Non-strict string order used to state sortedness of `sorted` output. -/
def strLe (a b : String) : Prop := (strLtB a b || a == b) = true

/-- Non-strict path order used to state sortedness of `sorted` output. -/
def pathLe (p q : ImagePath) : Prop := (pathLtB p q || p == q) = true

instance : DecidableRel strLe := fun a b =>
  inferInstanceAs (Decidable ((strLtB a b || a == b) = true))

instance : DecidableRel pathLe := fun p q =>
  inferInstanceAs (Decidable ((pathLtB p q || p == q) = true))

theorem strLe_total_thm (a b : String) : strLe a b ∨ strLe b a := by
  unfold strLe
  cases h1 : strLtB a b
  · cases h2 : strLtB b a
    · left
      have := strLtB_conn a b h1 h2
      subst this
      simp
    · right
      simp [h2]
  · left
    simp

instance : IsTotal String strLe := ⟨strLe_total_thm⟩

theorem strLe_trans_thm (a b c : String) (h1 : strLe a b) (h2 : strLe b c) :
    strLe a c := by
  unfold strLe at h1 h2 ⊢
  simp only [Bool.or_eq_true, beq_iff_eq] at h1 h2 ⊢
  rcases h1 with h1 | h1
  · rcases h2 with h2 | h2
    · exact Or.inl (strLtB_trans a b c h1 h2)
    · subst h2; exact Or.inl h1
  · subst h1; exact h2

instance : IsTrans String strLe := ⟨strLe_trans_thm⟩

theorem pathLe_total_thm (p q : ImagePath) : pathLe p q ∨ pathLe q p := by
  unfold pathLe
  cases h1 : pathLtB p q
  · cases h2 : pathLtB q p
    · left
      have := pathLtB_conn p q h1 h2
      subst this
      simp
    · right
      simp [h2]
  · left
    simp

instance : IsTotal ImagePath pathLe := ⟨pathLe_total_thm⟩

theorem pathLe_trans_thm (p q r : ImagePath) (h1 : pathLe p q)
    (h2 : pathLe q r) : pathLe p r := by
  unfold pathLe at h1 h2 ⊢
  simp only [Bool.or_eq_true, beq_iff_eq] at h1 h2 ⊢
  rcases h1 with h1 | h1
  · rcases h2 with h2 | h2
    · exact Or.inl (pathLtB_trans p q r h1 h2)
    · subst h2; exact Or.inl h1
  · subst h1; exact h2

instance : IsTrans ImagePath pathLe := ⟨pathLe_trans_thm⟩

/-- Python's `sorted` applied to a list of `Path` objects: a sort with
respect to the component-tuple order. -/
def sortPaths (l : List ImagePath) : List ImagePath := List.insertionSort pathLe l

/-- Python's `sorted` applied to paths that live in one directory and
differ only in their final component: a sort of the file names. -/
def sortNames (l : List String) : List String := List.insertionSort strLe l

/-- Rendering of a path as the string `str(path)` produces on POSIX. -/
def renderPath (p : ImagePath) : String := String.intercalate "/" p

/-- A path is absolute iff its component tuple starts with the root
marker (`Path.is_absolute()` on POSIX). -/
def pathIsAbs (p : ImagePath) : Bool := p.headD "nonempty" == ""

/-- Model of `Path.absolute()`: an absolute path is returned unchanged, a
relative one is interpreted relative to the current working directory. -/
def absolutePath (cwd p : ImagePath) : ImagePath :=
  if pathIsAbs p then p else cwd ++ p

/- ## Decimal rendering of output ordinals -/

/-- Fuel-bounded big-endian decimal digit expansion of a natural number.
The fuel only forces structural recursion; `toDec` always supplies
enough of it. -/
def toDecAux : Nat → Nat → List Nat
  | 0, _ => []
  | fuel + 1, n => if n < 10 then [n] else toDecAux fuel (n / 10) ++ [n % 10]

/-- Big-endian decimal digits of `n`, as Python's `format` renders an
integer. -/
def toDec (n : Nat) : List Nat := toDecAux (n + 1) n

/-- Value of a big-endian decimal digit list. -/
def fromDec (l : List Nat) : Nat := l.foldl (fun a d => 10 * a + d) 0

theorem fromDec_concat (l : List Nat) (d : Nat) :
    fromDec (l ++ [d]) = 10 * fromDec l + d := by
  unfold fromDec
  rw [List.foldl_append]
  rfl

theorem toDecAux_val : ∀ fuel n, n < fuel → fromDec (toDecAux fuel n) = n := by
  intro fuel
  induction fuel with
  | zero => intro n h; omega
  | succ fuel ih =>
    intro n h
    by_cases h10 : n < 10
    · simp [toDecAux, h10, fromDec]
    · have hdiv : n / 10 < n := Nat.div_lt_self (by omega) (by omega)
      simp only [toDecAux, h10, if_false]
      rw [fromDec_concat, ih (n / 10) (by omega)]
      omega

theorem fromDec_toDec (n : Nat) : fromDec (toDec n) = n :=
  toDecAux_val (n + 1) n (Nat.lt_succ_self n)

theorem toDecAux_digit_lt : ∀ fuel n d, d ∈ toDecAux fuel n → d < 10 := by
  intro fuel
  induction fuel with
  | zero => intro n d h; simp [toDecAux] at h
  | succ fuel ih =>
    intro n d h
    by_cases h10 : n < 10
    · simp [toDecAux, h10] at h
      omega
    · simp only [toDecAux, h10, if_false, List.mem_append, List.mem_singleton] at h
      rcases h with h | h
      · exact ih (n / 10) d h
      · omega

theorem toDec_digit_lt (n d : Nat) (h : d ∈ toDec n) : d < 10 :=
  toDecAux_digit_lt (n + 1) n d h

theorem fromDec_replicate_zero (k : Nat) (l : List Nat) :
    fromDec (List.replicate k 0 ++ l) = fromDec l := by
  induction k with
  | zero => rfl
  | succ k ih => simpa [List.replicate_succ, fromDec] using ih

/-- The character Python renders for a single decimal digit. -/
def digitChar (d : Nat) : Char := Char.ofNat (48 + d)

theorem digitChar_toNat (d : Nat) (h : d < 10) : (digitChar d).toNat = 48 + d := by
  interval_cases d <;> decide

/-- The output file name `f"calib_{idx:06d}.jpg"` written for the sample
at zero-based index `idx`: the decimal digits of `idx`, left-padded
with `'0'` to width 6, between the fixed stem and extension. -/
def fmtOrdinal (idx : Nat) : String :=
  "calib_" ++
    String.mk (List.replicate (6 - (toDec idx).length) '0' ++
      (toDec idx).map digitChar) ++ ".jpg"

/-- Reading the numeric value back out of the padded digit block. -/
def midVal (l : List Char) : Nat := fromDec (l.map (fun c => c.toNat - 48))

theorem midVal_pad (n : Nat) :
    midVal (List.replicate (6 - (toDec n).length) '0' ++
      (toDec n).map digitChar) = n := by
  unfold midVal
  rw [List.map_append, List.map_replicate, List.map_map]
  have h0 : ('0').toNat - 48 = 0 := by decide
  rw [h0]
  have hd : (toDec n).map ((fun c => c.toNat - 48) ∘ digitChar) = toDec n := by
    conv_rhs => rw [← List.map_id (toDec n)]
    apply List.map_congr_left
    intro d hdm
    have := toDec_digit_lt n d hdm
    simp [Function.comp, digitChar_toNat d this]
  rw [hd, fromDec_replicate_zero, fromDec_toDec]

/-- Distinct indices produce distinct output file names. -/
theorem fmtOrdinal_inj {m n : Nat} (h : fmtOrdinal m = fmtOrdinal n) : m = n := by
  have hdata := congrArg String.data h
  simp only [fmtOrdinal] at hdata
  have hshape : ∀ k : Nat,
      (("calib_" ++
        String.mk (List.replicate (6 - (toDec k).length) '0' ++
          (toDec k).map digitChar) ++ ".jpg").data) =
      "calib_".data ++
        ((List.replicate (6 - (toDec k).length) '0' ++
          (toDec k).map digitChar) ++ ".jpg".data) := by
    intro k
    simp [String.data_append, List.append_assoc]
  rw [hshape m, hshape n] at hdata
  have hmid := List.append_cancel_left hdata
  have hmid2 := List.append_cancel_right hmid
  have hv := congrArg midVal hmid2
  rwa [midVal_pad, midVal_pad] at hv

/- ## The `calib_*.jpg` glob pattern -/

/-- A file name matches the glob pattern `calib_*.jpg` (used both by the
stale-output cleanup and by the manifest scan) iff it starts with
`calib_` and ends with `.jpg`; the `*` may match the empty string, and
no shorter string can satisfy both conditions with an overlap, so
prefix-and-suffix is exactly glob matching. -/
def matchCalibGlob (n : String) : Prop :=
  "calib_".data <+: n.data ∧ ".jpg".data <:+ n.data

instance : DecidablePred matchCalibGlob := fun n =>
  inferInstanceAs (Decidable (_ ∧ _))

/-- Every canonical output name matches the cleanup/scan glob. -/
theorem matchCalibGlob_fmtOrdinal (n : Nat) : matchCalibGlob (fmtOrdinal n) := by
  constructor
  · have : (fmtOrdinal n).data = "calib_".data ++
        ((List.replicate (6 - (toDec n).length) '0' ++
          (toDec n).map digitChar) ++ ".jpg".data) := by
      simp [fmtOrdinal, String.data_append, List.append_assoc]
    rw [this]
    exact List.prefix_append _ _
  · have : (fmtOrdinal n).data = ("calib_".data ++
        (List.replicate (6 - (toDec n).length) '0' ++
          (toDec n).map digitChar)) ++ ".jpg".data := by
      simp [fmtOrdinal, String.data_append, List.append_assoc]
    rw [this]
    exact List.suffix_append _ _

/- ## Images, files, and the OpenCV codecs -/

/-- A decoded raster: `load_image` returns a BGR array whose `shape[:2]`
is `(height, width)`; the pixel data is kept as a flat list. -/
structure Img where
  height : Nat
  width : Nat
  pix : List Nat
deriving DecidableEq

/-- Modelled from the spec: the content of an image file as the external
OpenCV codecs see it.  A JPEG file records the quality it was encoded
at and its raster, a PNG file records its raster, and `corrupt` is a
file that cannot be decoded.  `cv2` is a third-party library; the spec
constrains it only to decode images and to re-encode them at a
specified JPEG quality. -/
inductive FileData where
  | jpegFile (quality : Nat) (raster : Img)
  | pngFile (raster : Img)
  | corrupt
deriving DecidableEq

/-- Modelled from the spec: `cv2.imread` decodes the stored raster and
yields `None` for an undecodable file (the script then logs a warning
and skips the item). -/
def cvImread : FileData → Option Img
  | .jpegFile _ r => some r
  | .pngFile r => some r
  | .corrupt => none

/-- Modelled from the spec: `cv2.imwrite(str(path), img,
[IMWRITE_JPEG_QUALITY, quality])` always produces a JPEG file at the
given quality holding the raster it was handed, whatever format the
source file had. -/
def cvImwriteJpeg (quality : Nat) (img : Img) : FileData :=
  .jpegFile quality img

/-- Modelled from the spec: `cv2.resize(image, (tw, th), INTER_LINEAR)`
is an external resampling; the claims depend only on the geometry of
its output, so the pixels here are a simple index-mapped resampling
to the target grid. -/
def cvResize (image : Img) (tw th : Nat) : Img :=
  { height := th, width := tw,
    pix := (List.range (th * tw * 3)).map (fun k =>
      let c := k % 3
      let x := k / 3 % tw
      let y := k / 3 / tw
      let sx := if tw = 0 then 0 else x * image.width / tw
      let sy := if th = 0 then 0 else y * image.height / th
      image.pix.getD ((sy * image.width + sx) * 3 + c) 0) }

/-- The function `resize_if_needed`: return the image unchanged when its
decoded dimensions already equal the target, otherwise resample. -/
def resize_if_needed (image : Img) (target_width target_height : Nat) : Img :=
  if image.width = target_width ∧ image.height = target_height then image
  else cvResize image target_width target_height

/-- Per-item processing of `process_images` after a successful load: the
conditional resize followed by the JPEG encode of `save_image`. -/
def encodeItem (target_width target_height quality : Nat) (img : Img) : FileData :=
  cvImwriteJpeg quality (resize_if_needed img target_width target_height)

/- ## The source tree and `collect_image_paths` -/

/-- The state of the source tree an invocation sees: whether the source
directory exists and is a directory, and the regular files below it —
paths relative to the source directory, paired with their contents. -/
structure World where
  srcExists : Bool
  srcIsDir : Bool
  files : List (ImagePath × FileData)

/-- The three `ValueError`s that `collect_image_paths` raises. -/
inductive CollectErr where
  | notFound
  | notADir
  | empty
deriving DecidableEq

deriving instance DecidableEq for Except

/-- The default `extensions` argument of `collect_image_paths`. -/
def defaultExts : List String := [".jpg", ".jpeg", ".png"]

/-- Python's `str.upper()` on one character, restricted to ASCII — all it
is ever applied to here are the ASCII extension strings. -/
def charUpper (c : Char) : Char :=
  if 97 ≤ c.toNat ∧ c.toNat ≤ 122 then Char.ofNat (c.toNat - 32) else c

/-- Python's `ext.upper()`. -/
def strUpper (s : String) : String := ⟨s.data.map charUpper⟩

/-- A relative file path matches `source_dir.rglob(f"*{suffix}")`: its
file name — the last path component — ends with the suffix (the glob
`*` may match the empty string, and `rglob` descends through every
subdirectory, which the relative component list already encodes). -/
def extMatch (f : ImagePath) (suffix : String) : Prop :=
  suffix.data <:+ (f.getLastD "").data

instance (f : ImagePath) (suffix : String) : Decidable (extMatch f suffix) :=
  inferInstanceAs (Decidable (_ <:+ _))

/-- The function `collect_image_paths`: validate the source directory,
gather the `rglob` matches of each configured extension in its
configured (lowercase) spelling and its `str.upper()` spelling,
deduplicate with `set`, sort, and fail when nothing matched. -/
def collect_image_paths (w : World) (source_dir : ImagePath)
    (extensions : List String) : Except CollectErr (List ImagePath) :=
  if ¬ w.srcExists then .error .notFound
  else if ¬ w.srcIsDir then .error .notADir
  else
    let relFiles := w.files.map Prod.fst
    let matched := extensions.flatMap (fun ext =>
      relFiles.filter (fun f => decide (extMatch f ext)) ++
        relFiles.filter (fun f => decide (extMatch f (strUpper ext))))
    let image_paths := sortPaths (matched.map (fun f => source_dir ++ f)).dedup
    if image_paths.isEmpty then .error .empty else .ok image_paths

/- ## The seeded sampler -/

/-- Modelled from the spec: the global state of the `random` module's
generator, advanced by a 64-bit linear congruential step.  The spec
leaves the algorithm unconstrained ("the generator's algorithm is
unconstrained but the seed→output mapping must be stable"), so an LCG
stands in for the Mersenne Twister. -/
def lcgNext (g : Nat) : Nat :=
  (6364136223846793005 * g + 1442695040888963407) % 2 ^ 64

/-- Modelled from the spec: `random.seed(seed)` overwrites the global
generator state with a pure function of the integer seed alone. -/
def pySeed (seed : Int) : Nat := (seed % (2 ^ 64 : Int)).toNat

/-- One draw of `random._randbelow(n)`: advance the generator and reduce
its output below `n`. -/
def randBelow (g n : Nat) : Nat × Nat :=
  let g2 := lcgNext g
  (if n = 0 then 0 else g2 % n, g2)

/-- CPython's `random.sample` selection-by-swapping pool algorithm: `k`
times, draw a uniform index `j` into the live region of the pool, emit
`pool[j]`, move the last live element into slot `j`, and shrink the
live region by one. -/
def drawPool (g : Nat) : Nat → List ImagePath → List ImagePath × Nat
  | 0, _ => ([], g)
  | _ + 1, [] => ([], g)
  | k + 1, p :: ps =>
    let pool := p :: ps
    let jg := randBelow g pool.length
    let x := pool.getD jg.1 p
    let pool2 := (pool.set jg.1 (pool.getLast (List.cons_ne_nil p ps))).dropLast
    let rest := drawPool jg.2 k pool2
    (x :: rest.1, rest.2)

/-- The `ValueError` that `random.sample` raises when the sample size is
negative or exceeds the population size. -/
inductive SampleErr where
  | valueError
deriving DecidableEq

/-- `random.sample(population, k)`: validate `0 ≤ k ≤ n`, then run the
pool draw, threading the global generator state. -/
def pySample (g : Nat) (population : List ImagePath) (k : Int) :
    Except SampleErr (List ImagePath) × Nat :=
  if k < 0 ∨ (population.length : Int) < k then (.error .valueError, g)
  else
    let res := drawPool g k.toNat population
    (.ok res.1, res.2)

/-- The function `sample_images`: re-seed the global generator, return
the whole list unchanged when it is not larger than the request,
otherwise draw `num_samples` elements without replacement and sort
them.  The first argument is the global generator state before the
call; `random.seed(seed)` overwrites it before any draw, so it is
dead. -/
def sample_images (g0 : Nat) (image_paths : List ImagePath)
    (num_samples : Int) (seed : Int) :
    Except SampleErr (List ImagePath) × Nat :=
  let g := pySeed seed
  if (image_paths.length : Int) ≤ num_samples then (.ok image_paths, g)
  else
    match pySample g image_paths num_samples with
    | (.error e, g2) => (.error e, g2)
    | (.ok sampled, g2) => (.ok (sortPaths sampled), g2)

/- ## Writing the output directory -/

/-- The cleanup step of `process_images`: unlink every file the glob
`output_dir.glob("calib_*.jpg")` yields, keep every other file. -/
def clearStale (dirFiles : List String) : List String :=
  dirFiles.filter (fun n => decide (¬ matchCalibGlob n))

/-- The per-item loop of `process_images`, with the `enumerate` counter
explicit: load each path — skipping, without writing anything, any
that fails to decode — resize if needed, and save
`calib_{idx:06d}.jpg`.  Returns the `(name, content)` pairs written,
in order. -/
def processLoop (load : ImagePath → Option Img)
    (target_width target_height quality : Nat) :
    Nat → List ImagePath → List (String × FileData)
  | _, [] => []
  | idx, p :: rest =>
    match load p with
    | none => processLoop load target_width target_height quality (idx + 1) rest
    | some img =>
      (fmtOrdinal idx, encodeItem target_width target_height quality img) ::
        processLoop load target_width target_height quality (idx + 1) rest

/-- The function `process_images`: create the output directory, clear
stale `calib_*.jpg` files, process every sampled path, and return the
count of successful saves together with the resulting directory
contents (surviving pre-existing files, then the new names in write
order). -/
def process_images (load : ImagePath → Option Img) (outDir0 : List String)
    (image_paths : List ImagePath)
    (target_width target_height quality : Nat) : Nat × List String :=
  let written := processLoop load target_width target_height quality 0 image_paths
  (written.length, clearStale outDir0 ++ written.map Prod.fst)

/- ## The manifest generator -/

/-- The fixed manifest file name. -/
def manifestName : String := "calibration_list.txt"

/-- The function `generate_image_list`: glob `calib_*.jpg` in the output
directory, fail when nothing matches, else sort by file name and emit
one newline-terminated absolute path per file.  `none` is the `False`
return that makes `main` exit nonzero. -/
def generate_image_list (cwd outDir : ImagePath) (dirFiles : List String) :
    Option (List String) :=
  let image_files :=
    sortNames (dirFiles.filter (fun n => decide (matchCalibGlob n)))
  if image_files.isEmpty then none
  else some (image_files.map (fun n =>
    renderPath (absolutePath cwd (outDir ++ [n])) ++ "\n"))

/- ## The orchestrator `main` -/

/-- The function `load_image` applied to a collected path: find the file
on disk (the collector emitted `source_dir ++ f` for each relative
file `f`) and decode it with `cv2.imread`. -/
def loadImage (w : World) (source_dir : ImagePath) (p : ImagePath) : Option Img :=
  match w.files.find? (fun fd => source_dir ++ fd.1 == p) with
  | none => none
  | some fd => cvImread fd.2

/-- The observable outcome of one run: the process exit code, the final
output directory contents, the success counter reported by the final
`Successfully processed {successful}/{len}` log line, and the manifest
lines when a manifest was written. -/
structure RunOut where
  exitCode : Int
  dirFiles : List String
  successCount : Nat
  manifest : Option (List String)
deriving DecidableEq

/-- The tail of `main` from `process_images` on: process the sampled
paths, exit 1 when zero images were processed, generate the manifest,
exit 1 when that fails, else exit 0. -/
def mainTail (load : ImagePath → Option Img) (outDir0 : List String)
    (selected : List ImagePath) (target_width target_height quality : Nat)
    (cwd outDir : ImagePath) : RunOut :=
  let pr := process_images load outDir0 selected target_width target_height quality
  if pr.1 = 0 then ⟨1, pr.2, pr.1, none⟩
  else
    match generate_image_list cwd outDir pr.2 with
    | none => ⟨1, pr.2, pr.1, none⟩
    | some m => ⟨0, pr.2 ++ [manifestName], pr.1, some m⟩

/-- Filesystem events observable during a run; `enumerate` is the
recursive traversal of the source tree performed by the `rglob` calls
of `collect_image_paths`. -/
inductive Ev where
  | enumerate
  | sampleDraw
  | processItems
deriving DecidableEq

/-- One invocation's arguments after `argparse` — which accepts any
integer for `--num-images` and for `--seed` and performs no range
check on either. -/
structure Args where
  numImages : Int
  width : Nat
  height : Nat
  quality : Nat
  seed : Int
deriving DecidableEq

/-- The function `main` after argument parsing: collect, sample, process
and generate the manifest, mapping every `ValueError` raised by a
stage to exit code 1.  The trace of filesystem events is returned
alongside, in order of occurrence. -/
def runMain (w : World) (source_dir outDir cwd : ImagePath)
    (outDir0 : List String) (g0 : Nat) (a : Args) : RunOut × List Ev :=
  match collect_image_paths w source_dir defaultExts with
  | .error .notFound => (⟨1, outDir0, 0, none⟩, [])
  | .error .notADir => (⟨1, outDir0, 0, none⟩, [])
  | .error .empty => (⟨1, outDir0, 0, none⟩, [.enumerate])
  | .ok all_images =>
    match sample_images g0 all_images a.numImages a.seed with
    | (.error _, _) => (⟨1, outDir0, 0, none⟩, [.enumerate, .sampleDraw])
    | (.ok selected, _) =>
      (mainTail (loadImage w source_dir) outDir0 selected
          a.width a.height a.quality cwd outDir,
        [.enumerate, .sampleDraw, .processItems])

/- ## Helper lemmas about the sampler -/

/-- When the corpus is not larger than the request, `sample_images`
returns it unchanged, whatever the seed. -/
theorem sample_images_small (g0 : Nat) (paths : List ImagePath)
    (n seed : Int) (h : (paths.length : Int) ≤ n) :
    (sample_images g0 paths n seed).1 = .ok paths := by
  simp [sample_images, h]

/- ## Helper lemmas about `collect_image_paths` -/

theorem collect_ok_elim {w : World} {source_dir : ImagePath}
    {exts : List String} {l : List ImagePath}
    (h : collect_image_paths w source_dir exts = .ok l) :
    l = sortPaths (((exts.flatMap (fun ext =>
      (w.files.map Prod.fst).filter (fun f => decide (extMatch f ext)) ++
        (w.files.map Prod.fst).filter
          (fun f => decide (extMatch f (strUpper ext))))).map
            (fun f => source_dir ++ f)).dedup) := by
  unfold collect_image_paths at h
  by_cases h1 : w.srcExists
  · by_cases h2 : w.srcIsDir
    · simp only [h1, h2, not_true, if_false, if_neg] at h
      split at h
      · exact absurd h (by simp)
      · exact (Except.ok.injEq _ _ ▸ congrArg id h) ▸ (Except.ok.inj h).symm
    · simp [h1, h2] at h
  · simp [h1] at h

theorem collect_ok_nonempty {w : World} {source_dir : ImagePath}
    {exts : List String} {l : List ImagePath}
    (h : collect_image_paths w source_dir exts = .ok l) : l ≠ [] := by
  unfold collect_image_paths at h
  by_cases h1 : w.srcExists
  · by_cases h2 : w.srcIsDir
    · simp only [h1, h2, not_true, if_false, if_neg] at h
      split at h
      · exact absurd h (by simp)
      · rename_i hne
        rw [← (Except.ok.inj h)]
        simpa [List.isEmpty_iff] using hne
    · simp [h1, h2] at h
  · simp [h1] at h

theorem collect_exists_true {w : World} {source_dir : ImagePath}
    {exts : List String} {l : List ImagePath}
    (h : collect_image_paths w source_dir exts = .ok l) :
    w.srcExists = true ∧ w.srcIsDir = true := by
  unfold collect_image_paths at h
  by_cases h1 : w.srcExists
  · by_cases h2 : w.srcIsDir
    · exact ⟨h1, h2⟩
    · simp [h1, h2] at h
  · simp [h1] at h

theorem collect_mem {w : World} {source_dir : ImagePath}
    {exts : List String} {l : List ImagePath}
    (h : collect_image_paths w source_dir exts = .ok l) (p : ImagePath) :
    p ∈ l ↔ ∃ f ∈ w.files.map Prod.fst, p = source_dir ++ f ∧
      ∃ ext ∈ exts, extMatch f ext ∨ extMatch f (strUpper ext) := by
  rw [collect_ok_elim h]
  unfold sortPaths
  rw [(List.perm_insertionSort pathLe _).mem_iff, List.mem_dedup, List.mem_map]
  constructor
  · rintro ⟨f, hf, rfl⟩
    simp only [List.mem_flatMap, List.mem_append, List.mem_filter,
      decide_eq_true_eq] at hf
    rcases hf with ⟨ext, hext, ⟨hfm, hm⟩ | ⟨hfm, hm⟩⟩
    · exact ⟨f, hfm, rfl, ext, hext, Or.inl hm⟩
    · exact ⟨f, hfm, rfl, ext, hext, Or.inr hm⟩
  · rintro ⟨f, hfm, rfl, ext, hext, hm⟩
    refine ⟨f, ?_, rfl⟩
    simp only [List.mem_flatMap, List.mem_append, List.mem_filter,
      decide_eq_true_eq]
    rcases hm with hm | hm
    · exact ⟨ext, hext, Or.inl ⟨hfm, hm⟩⟩
    · exact ⟨ext, hext, Or.inr ⟨hfm, hm⟩⟩

theorem collect_nodup {w : World} {source_dir : ImagePath}
    {exts : List String} {l : List ImagePath}
    (h : collect_image_paths w source_dir exts = .ok l) : l.Nodup := by
  rw [collect_ok_elim h]
  exact (List.perm_insertionSort pathLe _).symm.nodup (List.nodup_dedup _)

theorem collect_sorted {w : World} {source_dir : ImagePath}
    {exts : List String} {l : List ImagePath}
    (h : collect_image_paths w source_dir exts = .ok l) :
    List.Sorted pathLe l := by
  rw [collect_ok_elim h]
  exact List.sorted_insertionSort pathLe _

/- ## Helper lemmas about the path order -/

theorem pathLe_append_left (c a b : ImagePath) (h : pathLe a b) :
    pathLe (c ++ a) (c ++ b) := by
  unfold pathLe at h ⊢
  simp only [Bool.or_eq_true, beq_iff_eq] at h ⊢
  rcases h with h | h
  · left
    unfold pathLtB at h ⊢
    rw [lexLtB_append_left strLtB strLtB_asymm]
    exact h
  · right
    rw [h]

theorem pathIsAbs_append (s f : ImagePath) (hs : s ≠ []) :
    pathIsAbs (s ++ f) = pathIsAbs s := by
  cases s with
  | nil => exact absurd rfl hs
  | cons x xs => rfl

theorem collect_sorted_abs_aux {w : World} {source_dir : ImagePath}
    {exts : List String} {l : List ImagePath}
    (h : collect_image_paths w source_dir exts = .ok l)
    (hs : source_dir ≠ []) (cwd : ImagePath) :
    List.Sorted pathLe (l.map (absolutePath cwd)) := by
  have hsort := collect_sorted h
  cases habs : pathIsAbs source_dir with
  | true =>
    have hid : l.map (absolutePath cwd) = l := by
      conv_rhs => rw [← List.map_id l]
      apply List.map_congr_left
      intro p hp
      rcases (collect_mem h p).mp hp with ⟨f, _, rfl, _⟩
      simp [absolutePath, pathIsAbs_append source_dir f hs, habs]
    rw [hid]
    exact hsort
  | false =>
    have hshift : l.map (absolutePath cwd) = l.map (fun p => cwd ++ p) := by
      apply List.map_congr_left
      intro p hp
      rcases (collect_mem h p).mp hp with ⟨f, _, rfl, _⟩
      simp [absolutePath, pathIsAbs_append source_dir f hs, habs]
    rw [hshift]
    exact List.Pairwise.map _ (fun a b hab => pathLe_append_left cwd a b hab) hsort

/- ## Helper lemmas about the writer loop -/

theorem processLoop_skip (load : ImagePath → Option Img)
    (tw th q : Nat) (i : Nat) (p : ImagePath) (C : List ImagePath)
    (hbad : load p = none) :
    processLoop load tw th q i (p :: C) =
      processLoop load tw th q (i + 1) C := by
  simp [processLoop, hbad]

theorem processLoop_cons_ok (load : ImagePath → Option Img)
    (tw th q : Nat) (i : Nat) (p : ImagePath) (C : List ImagePath)
    (img : Img) (hl : load p = some img) :
    processLoop load tw th q i (p :: C) =
      (fmtOrdinal i, encodeItem tw th q img) ::
        processLoop load tw th q (i + 1) C := by
  simp [processLoop, hl]

theorem processLoop_append (load : ImagePath → Option Img)
    (tw th q : Nat) (i : Nat) (A B : List ImagePath) :
    processLoop load tw th q i (A ++ B) =
      processLoop load tw th q i A ++
        processLoop load tw th q (i + A.length) B := by
  induction A generalizing i with
  | nil => simp [processLoop]
  | cons p ps ih =>
    have harith : i + 1 + ps.length = i + (p :: ps).length := by
      simp [List.length_cons]
      omega
    cases hl : load p with
    | none =>
      rw [List.cons_append, processLoop_skip load tw th q i p (ps ++ B) hl,
        processLoop_skip load tw th q i p ps hl, ih (i + 1), harith]
    | some img =>
      rw [List.cons_append, processLoop_cons_ok load tw th q i p (ps ++ B) img hl,
        processLoop_cons_ok load tw th q i p ps img hl, ih (i + 1), harith,
        List.cons_append]

theorem processLoop_all_ok (load : ImagePath → Option Img)
    (tw th q : Nat) (i : Nat) (A : List ImagePath)
    (hA : ∀ p ∈ A, (load p).isSome) :
    (processLoop load tw th q i A).map Prod.fst =
      (List.range' i A.length).map fmtOrdinal := by
  induction A generalizing i with
  | nil => simp [processLoop]
  | cons p ps ih =>
    have hp := hA p (List.mem_cons_self p ps)
    cases hl : load p with
    | none => rw [hl] at hp; simp at hp
    | some img =>
      have hr : List.range' i (p :: ps).length = i :: List.range' (i + 1) ps.length := by
        simp [List.length_cons, List.range'_succ]
      rw [hr]
      simp only [processLoop, hl, List.map_cons]
      rw [ih (i + 1) (fun x hx => hA x (List.mem_cons_of_mem p hx))]

theorem processLoop_length_all_ok (load : ImagePath → Option Img)
    (tw th q : Nat) (i : Nat) (A : List ImagePath)
    (hA : ∀ p ∈ A, (load p).isSome) :
    (processLoop load tw th q i A).length = A.length := by
  have h := congrArg List.length (processLoop_all_ok load tw th q i A hA)
  simpa [List.length_map, List.length_range'] using h

/- ## Helper lemmas about the cleanup and the glob -/

theorem clearStale_mem (dirFiles : List String) (n : String) :
    n ∈ clearStale dirFiles ↔ n ∈ dirFiles ∧ ¬ matchCalibGlob n := by
  simp [clearStale, List.mem_filter]

theorem clearStale_no_matches (dirFiles : List String) :
    (clearStale dirFiles).filter (fun n => decide (matchCalibGlob n)) = [] := by
  unfold clearStale
  rw [List.filter_filter]
  have hfalse : ∀ a : String,
      (decide (matchCalibGlob a) && decide (¬ matchCalibGlob a)) = false := by
    intro a
    by_cases hm : matchCalibGlob a <;> simp [hm]
  calc List.filter (fun a => decide (matchCalibGlob a) && decide (¬ matchCalibGlob a)) dirFiles
      = List.filter (fun _ => false) dirFiles := by
        apply List.filter_congr
        intro a _
        exact hfalse a
    _ = [] := List.filter_false dirFiles

theorem manifestName_not_calib : ¬ matchCalibGlob manifestName := by decide

/- ## Concrete instances used by counterexamples and witnesses -/

/-- A source tree holding a mixed-case `a.Jpg` next to a lowercase
`b.jpg`. -/
def wMixed : World := ⟨true, true, [(["a.Jpg"], .corrupt), (["b.jpg"], .corrupt)]⟩

/-- A source tree with a sibling directory name containing `-`, which
separates component-tuple order from path-string order. -/
def wDash : World :=
  ⟨true, true, [(["a", "x.jpg"], .corrupt), (["a-b", "x.jpg"], .corrupt)]⟩

/-- A source tree whose output subdirectory still holds the first output
file of a previous run. -/
def wPrev : World :=
  ⟨true, true, [(["calibration_images", "calib_000000.jpg"], .jpegFile 95 ⟨1, 1, [0]⟩)]⟩

/-- A source tree with one decodable image. -/
def wOne : World := ⟨true, true, [(["a.jpg"], .pngFile ⟨1, 1, [0]⟩)]⟩

/-- A loader whose only failing path is `["b"]`. -/
def loadW : ImagePath → Option Img :=
  fun p => if p == ["b"] then none else some ⟨392, 644, [0]⟩

/- ## C1 -/

/-- C1: for every corpus, every sample count and every seed, two runs of
the sampling operation produce exactly the same result — the same
SampleSet elements in the same order and the same final generator
state — whatever global generator state each run starts from:
`sample_images` begins with `random.seed(seed)`, which overwrites the
global state, so its output depends only on corpus, count and seed. -/
theorem sample_images_deterministic (g1 g2 : Nat) (corpus : List ImagePath)
    (num_samples seed : Int) :
    sample_images g1 corpus num_samples seed =
      sample_images g2 corpus num_samples seed := rfl

/- ## C2 -/

/-- C2: whenever the corpus is not larger than the requested sample
count, sampling returns the corpus itself — same elements, same
order — independently of the seed and of the prior generator state. -/
theorem sample_images_small_corpus_id (g0 : Nat) (corpus : List ImagePath)
    (num_samples seed : Int) (h : (corpus.length : Int) ≤ num_samples) :
    (sample_images g0 corpus num_samples seed).1 = .ok corpus :=
  sample_images_small g0 corpus num_samples seed h

/-- Witness for C2 at a concrete two-element corpus, two generator
states and two different seeds. -/
theorem sample_images_small_corpus_id_witness :
    ((([["a"], ["b"]] : List ImagePath).length : Int) ≤ 5) ∧
    (sample_images 7 [["a"], ["b"]] 5 99).1 = .ok [["a"], ["b"]] ∧
    (sample_images 123 [["a"], ["b"]] 5 (-4)).1 = .ok [["a"], ["b"]] :=
  ⟨by decide, sample_images_small_corpus_id 7 [["a"], ["b"]] 5 99 (by decide),
    sample_images_small_corpus_id 123 [["a"], ["b"]] 5 (-4) (by decide)⟩

/- ## C4 -/

/-- C4 counterexample: `a.Jpg` carries a case variant of the configured
`.jpg` extension, but the collector — which only globs the configured
lowercase spelling and its full-uppercase spelling — does not collect
it: the corpus of this tree contains only `src/b.jpg`. -/
theorem collect_mixed_case_missed_cx :
    collect_image_paths wMixed ["src"] defaultExts = .ok [["src", "b.jpg"]] ∧
    (["src", "a.Jpg"] : ImagePath) ∉ [(["src", "b.jpg"] : ImagePath)] := by
  constructor
  · decide
  · decide

/-- C4 amended: path collection matches a file exactly when its name ends
with one of the configured suffixes in its configured (lowercase)
spelling or in its full `str.upper()` spelling — mixed-case variants
such as `.Jpg` are not matched — and every collected path appears
exactly once in the corpus, however many patterns matched it. -/
theorem collect_membership_exact_cases {w : World} {source_dir : ImagePath}
    {exts : List String} {l : List ImagePath}
    (h : collect_image_paths w source_dir exts = .ok l) :
    l.Nodup ∧ ∀ p : ImagePath, p ∈ l ↔ ∃ f ∈ w.files.map Prod.fst,
      p = source_dir ++ f ∧
        ∃ ext ∈ exts, extMatch f ext ∨ extMatch f (strUpper ext) :=
  ⟨collect_nodup h, fun p => collect_mem h p⟩

/-- Witness for C4's amended statement on the mixed-case tree. -/
theorem collect_membership_exact_cases_witness :
    ([(["src", "b.jpg"] : ImagePath)].Nodup) ∧
    ((["src", "a.Jpg"] : ImagePath) ∈ [(["src", "b.jpg"] : ImagePath)] ↔
      ∃ f ∈ wMixed.files.map Prod.fst,
        (["src", "a.Jpg"] : ImagePath) = ["src"] ++ f ∧
          ∃ ext ∈ defaultExts, extMatch f ext ∨ extMatch f (strUpper ext)) :=
  ⟨(@collect_membership_exact_cases wMixed ["src"] defaultExts
      [["src", "b.jpg"]] (by decide)).1,
    (@collect_membership_exact_cases wMixed ["src"] defaultExts
      [["src", "b.jpg"]] (by decide)).2 ["src", "a.Jpg"]⟩

/- ## C5 -/

/-- C5 counterexample: the collector returns the corpus in `pathlib`'s
component-tuple order, `src/a/x.jpg` before `src/a-b/x.jpg`; rendered
as absolute path strings the second element is strictly smaller than
the first (`-` sorts before `/` by code point), so the corpus is not
in ascending lexicographic order of the absolute path strings. -/
theorem collect_not_string_sorted_cx :
    collect_image_paths wDash ["src"] defaultExts =
      .ok [["src", "a", "x.jpg"], ["src", "a-b", "x.jpg"]] ∧
    strLtB (renderPath (absolutePath ["", "c"] ["src", "a-b", "x.jpg"]))
      (renderPath (absolutePath ["", "c"] ["src", "a", "x.jpg"])) = true := by
  constructor
  · decide
  · decide

/-- C5 amended: the corpus is sorted in ascending order of the
component-wise (`PurePath._cparts`) lexicographic path order — not of
the path strings — and since all corpus entries share the source
directory as a common component-list part, replacing each entry by
its absolutized path preserves that component-wise sortedness. -/
theorem collect_sorted_component_order {w : World} {source_dir : ImagePath}
    {exts : List String} {l : List ImagePath}
    (h : collect_image_paths w source_dir exts = .ok l)
    (hs : source_dir ≠ []) (cwd : ImagePath) :
    List.Sorted pathLe l ∧ List.Sorted pathLe (l.map (absolutePath cwd)) :=
  ⟨collect_sorted h, collect_sorted_abs_aux h hs cwd⟩

/-- Witness for C5's amended statement on the dash tree. -/
theorem collect_sorted_component_order_witness :
    List.Sorted pathLe [(["src", "a", "x.jpg"] : ImagePath), ["src", "a-b", "x.jpg"]] ∧
    List.Sorted pathLe
      ([(["src", "a", "x.jpg"] : ImagePath), ["src", "a-b", "x.jpg"]].map
        (absolutePath ["", "c"])) :=
  @collect_sorted_component_order wDash ["src"] defaultExts
    [["src", "a", "x.jpg"], ["src", "a-b", "x.jpg"]] (by decide)
    (by decide) ["", "c"]

/- ## C6 -/

/-- C6 counterexample: a PNG source file whose decoded raster already has
the target dimensions; the raster is passed through the resize stage
unchanged, but the writer still re-encodes it as a JPEG at the
configured quality, so the written file differs from the source
file — the pass-through does not extend to the written bytes. -/
theorem passthrough_still_reencodes_cx :
    cvImread (FileData.pngFile ⟨392, 644, [7]⟩) = some ⟨392, 644, [7]⟩ ∧
    (⟨392, 644, [7]⟩ : Img).width = 644 ∧
    (⟨392, 644, [7]⟩ : Img).height = 392 ∧
    encodeItem 644 392 95 ⟨392, 644, [7]⟩ ≠ FileData.pngFile ⟨392, 644, [7]⟩ := by
  decide

/-- C6 amended: when a source image decodes to a raster whose dimensions
already equal the configured target, the raster reaches the encoder
unchanged — no resampling happens — but the output is nevertheless the
JPEG re-encoding of that raster at the configured quality, not the
source file's bytes. -/
theorem passthrough_raster_unchanged (f : FileData) (img : Img)
    (target_width target_height quality : Nat)
    (hdec : cvImread f = some img) (hw : img.width = target_width)
    (hh : img.height = target_height) :
    resize_if_needed img target_width target_height = img ∧
    encodeItem target_width target_height quality img = cvImwriteJpeg quality img := by
  have hr : resize_if_needed img target_width target_height = img := by
    simp [resize_if_needed, hw, hh]
  exact ⟨hr, by simp [encodeItem, hr]⟩

/-- Witness for C6's amended statement on a PNG source of target size. -/
theorem passthrough_raster_unchanged_witness :
    resize_if_needed ⟨392, 644, [7]⟩ 644 392 = ⟨392, 644, [7]⟩ ∧
    encodeItem 644 392 95 ⟨392, 644, [7]⟩ = cvImwriteJpeg 95 ⟨392, 644, [7]⟩ :=
  passthrough_raster_unchanged (FileData.pngFile ⟨392, 644, [7]⟩) ⟨392, 644, [7]⟩
    644 392 95 (by decide) (by decide) (by decide)

/- ## C7 -/

/-- The canonical output naming pattern in the words of the spec:
`calib_` followed by exactly six decimal digits and the fixed `.jpg`
extension.  This is a spec-side definition, written to compare the
cleanup's actual deletion set against the claimed canonical pattern. -/
def canonicalCalibName (n : String) : Prop :=
  n.data.length = 16 ∧ "calib_".data <+: n.data ∧ ".jpg".data <:+ n.data ∧
    ∀ c ∈ (n.data.drop 6).take 6, c.isDigit

instance (n : String) : Decidable (canonicalCalibName n) :=
  inferInstanceAs (Decidable (_ ∧ _ ∧ _ ∧ _))

/-- C7 counterexample: `calib_stale.jpg` does not match the canonical
six-digit pattern, yet the cleanup — which deletes everything matching
the glob `calib_*.jpg` — removes it. -/
theorem cleanup_deletes_noncanonical_cx :
    ¬ canonicalCalibName "calib_stale.jpg" ∧
    clearStale ["calib_stale.jpg", "notes.txt"] = ["notes.txt"] := by
  decide

/-- C7 amended: the cleanup step deletes exactly the files matching the
glob `calib_*.jpg` — any stem after `calib_`, not only six-digit
ordinals — and leaves every file not matching that glob untouched;
every canonical `calib_NNNNNN.jpg` name does match the glob, so all
canonically named files are among the deleted ones. -/
theorem cleanup_deletes_exactly_glob (dirFiles : List String) (n : String) :
    (n ∈ clearStale dirFiles ↔ n ∈ dirFiles ∧ ¬ matchCalibGlob n) ∧
    (canonicalCalibName n → matchCalibGlob n) := by
  constructor
  · exact clearStale_mem dirFiles n
  · rintro ⟨-, hp, hs, -⟩
    exact ⟨hp, hs⟩

/-- Witness for C7's amended statement on a canonical name. -/
theorem cleanup_deletes_exactly_glob_witness :
    ("calib_000007.jpg" ∈ clearStale ["calib_000007.jpg", "keep.txt"] ↔
      "calib_000007.jpg" ∈ ["calib_000007.jpg", "keep.txt"] ∧
        ¬ matchCalibGlob "calib_000007.jpg") ∧
    (canonicalCalibName "calib_000007.jpg" → matchCalibGlob "calib_000007.jpg") :=
  cleanup_deletes_exactly_glob ["calib_000007.jpg", "keep.txt"] "calib_000007.jpg"

/- ## C10 -/

/-- Helper: a file below the source directory whose name matches one of
the extension globs forces `collect_image_paths` to succeed and to
include that file. -/
theorem collect_ok_of_match (w : World) (source_dir : ImagePath)
    (exts : List String) (f : ImagePath) (ext : String)
    (hex : w.srcExists = true) (hdir : w.srcIsDir = true)
    (hf : f ∈ w.files.map Prod.fst) (hext : ext ∈ exts)
    (hm : extMatch f ext) :
    ∃ l, collect_image_paths w source_dir exts = .ok l ∧ source_dir ++ f ∈ l := by
  unfold collect_image_paths
  simp only [hex, hdir, Bool.not_true, Bool.false_eq_true, if_false, if_neg,
    not_false_eq_true]
  have hpin : source_dir ++ f ∈ sortPaths (((exts.flatMap (fun e =>
      (w.files.map Prod.fst).filter (fun g => decide (extMatch g e)) ++
        (w.files.map Prod.fst).filter
          (fun g => decide (extMatch g (strUpper e))))).map
            (fun g => source_dir ++ g)).dedup) := by
    unfold sortPaths
    rw [(List.perm_insertionSort pathLe _).mem_iff, List.mem_dedup, List.mem_map]
    refine ⟨f, ?_, rfl⟩
    simp only [List.mem_flatMap, List.mem_append, List.mem_filter,
      decide_eq_true_eq]
    exact ⟨ext, hext, Or.inl ⟨hf, hm⟩⟩
  have hne : ¬ (sortPaths (((exts.flatMap (fun e =>
      (w.files.map Prod.fst).filter (fun g => decide (extMatch g e)) ++
        (w.files.map Prod.fst).filter
          (fun g => decide (extMatch g (strUpper e))))).map
            (fun g => source_dir ++ g)).dedup)).isEmpty := by
    intro hemp
    rw [List.isEmpty_iff] at hemp
    rw [hemp] at hpin
    exact absurd hpin (List.not_mem_nil _)
  rw [if_neg hne]
  exact ⟨_, rfl, hpin⟩

/-- C10: path collection does not exclude the output directory — when the
output directory sits below the source directory and still holds a
`calib_*.jpg` file written by a previous run, that file is collected
into the corpus, and whenever the corpus is no larger than the
requested count it is certain to enter the SampleSet. -/
theorem collect_includes_prior_outputs (w : World) (source_dir outSub : ImagePath)
    (name : String) (g0 : Nat) (n seed : Int)
    (hex : w.srcExists = true) (hdir : w.srcIsDir = true)
    (hmem : (outSub ++ [name]) ∈ w.files.map Prod.fst)
    (hname : matchCalibGlob name) :
    ∃ l, collect_image_paths w source_dir defaultExts = .ok l ∧
      source_dir ++ (outSub ++ [name]) ∈ l ∧
      ((l.length : Int) ≤ n → (sample_images g0 l n seed).1 = .ok l) := by
  have hjpg : extMatch (outSub ++ [name]) ".jpg" := by
    unfold extMatch
    rw [List.getLastD_concat]
    exact hname.2
  rcases collect_ok_of_match w source_dir defaultExts (outSub ++ [name]) ".jpg"
      hex hdir hmem (by decide) hjpg with ⟨l, hcol, hin⟩
  exact ⟨l, hcol, hin, fun hle => sample_images_small g0 l n seed hle⟩

/-- Witness for C10 on a tree whose `calibration_images` subdirectory
holds `calib_000000.jpg` from a previous run. -/
theorem collect_includes_prior_outputs_witness :
    ∃ l, collect_image_paths wPrev ["data"] defaultExts = .ok l ∧
      ["data"] ++ (["calibration_images"] ++ ["calib_000000.jpg"]) ∈ l ∧
      ((l.length : Int) ≤ 300 → (sample_images 0 l 300 42).1 = .ok l) :=
  collect_includes_prior_outputs wPrev ["data"] ["calibration_images"]
    "calib_000000.jpg" 0 300 42 rfl rfl (by decide) (by decide)

/- ## C9 -/

/-- C9: the manifest generator depends only on the physical contents of
the output directory (its `dirFiles` argument is the whole of its
input — never the requested sample count, never the in-memory success
counter): it fails exactly when no `calib_*.jpg` file is present, and
otherwise emits one newline-terminated absolute path per matching
file, in ascending file-name order. -/
theorem generate_image_list_spec (cwd outDir : ImagePath)
    (dirFiles : List String) :
    (generate_image_list cwd outDir dirFiles = none ↔
      dirFiles.filter (fun n => decide (matchCalibGlob n)) = []) ∧
    (∀ m, generate_image_list cwd outDir dirFiles = some m →
      ∃ files, files.Perm (dirFiles.filter (fun n => decide (matchCalibGlob n))) ∧
        List.Sorted strLe files ∧
        m = files.map (fun n =>
          renderPath (absolutePath cwd (outDir ++ [n])) ++ "\n") ∧
        m.length =
          (dirFiles.filter (fun n => decide (matchCalibGlob n))).length) := by
  simp only [generate_image_list]
  have hperm := List.perm_insertionSort strLe
    (dirFiles.filter (fun n => decide (matchCalibGlob n)))
  have hsort := List.sorted_insertionSort strLe
    (dirFiles.filter (fun n => decide (matchCalibGlob n)))
  constructor
  · constructor
    · intro h
      by_cases hemp :
          (sortNames (dirFiles.filter (fun n => decide (matchCalibGlob n)))).isEmpty
      · have h0 : sortNames (dirFiles.filter (fun n => decide (matchCalibGlob n))) = [] := by
          rwa [List.isEmpty_iff] at hemp
        have hl := hperm.length_eq
        unfold sortNames at h0
        rw [h0] at hl
        exact List.length_eq_zero.mp hl.symm
      · rw [if_neg hemp] at h
        exact absurd h (by simp)
    · intro hF0
      have h0 : sortNames (dirFiles.filter (fun n => decide (matchCalibGlob n))) = [] := by
        rw [hF0]
        rfl
      rw [h0]
      rfl
  · intro m hm
    by_cases hemp :
        (sortNames (dirFiles.filter (fun n => decide (matchCalibGlob n)))).isEmpty
    · rw [if_pos hemp] at hm
      exact absurd hm (by simp)
    · rw [if_neg hemp] at hm
      refine ⟨sortNames (dirFiles.filter (fun n => decide (matchCalibGlob n))),
        hperm, hsort, (Option.some.inj hm).symm, ?_⟩
      rw [← Option.some.inj hm]
      simp only [List.length_map]
      exact hperm.length_eq

/-- Witness for C9 on a directory holding two out-of-order calibration
files and one unrelated file. -/
theorem generate_image_list_spec_witness :
    ∃ files, files.Perm (["calib_000001.jpg", "calib_000000.jpg", "note.txt"].filter
        (fun n => decide (matchCalibGlob n))) ∧
      List.Sorted strLe files ∧
      ["/c/out/calib_000000.jpg\n", "/c/out/calib_000001.jpg\n"] =
        files.map (fun n =>
          renderPath (absolutePath ["", "c"] (["out"] ++ [n])) ++ "\n") ∧
      (["/c/out/calib_000000.jpg\n", "/c/out/calib_000001.jpg\n"] : List String).length =
        (["calib_000001.jpg", "calib_000000.jpg", "note.txt"].filter
          (fun n => decide (matchCalibGlob n))).length :=
  (generate_image_list_spec ["", "c"] ["out"]
      ["calib_000001.jpg", "calib_000000.jpg", "note.txt"]).2
    ["/c/out/calib_000000.jpg\n", "/c/out/calib_000001.jpg\n"] (by decide)

/- ## C3 -/

/-- C3 counterexample: an invocation with requested count 0 on a valid
one-image tree does exit with status 1, but only after the source
tree was enumerated — the traversal event is in the run's trace, so
the rejection does not happen before directory traversal. -/
theorem main_traverses_despite_nonpositive_n_cx :
    ((⟨0, 644, 392, 95, 42⟩ : Args).numImages ≤ 0) ∧
    (runMain wOne ["src"] ["out"] ["", "c"] [] 0 ⟨0, 644, 392, 95, 42⟩).1.exitCode = 1 ∧
    Ev.enumerate ∈ (runMain wOne ["src"] ["out"] ["", "c"] [] 0 ⟨0, 644, 392, 95, 42⟩).2 := by
  decide

/-- Helper: which validation failure `collect_image_paths` reports
determines what was wrong with the source directory. -/
theorem collect_error_cases {w : World} {source_dir : ImagePath}
    {exts : List String} {e : CollectErr}
    (h : collect_image_paths w source_dir exts = .error e) :
    (e = .notFound ∧ w.srcExists = false) ∨
      (e = .notADir ∧ w.srcIsDir = false) ∨ e = .empty := by
  unfold collect_image_paths at h
  by_cases h1 : w.srcExists
  · by_cases h2 : w.srcIsDir
    · rw [if_neg (by simp [h1]), if_neg (by simp [h2])] at h
      simp only [List.isEmpty_iff] at h
      split at h
      · right
        right
        exact (Except.error.inj h).symm
      · exact absurd h (by simp)
    · rw [if_neg (by simp [h1]), if_pos (by simpa using h2)] at h
      right
      left
      exact ⟨(Except.error.inj h).symm, by simpa using h2⟩
  · rw [if_pos (by simpa using h1)] at h
    left
    exact ⟨(Except.error.inj h).symm, by simpa using h1⟩

/-- C3 amended: a run with requested sample count N ≤ 0 always exits
with status 1, but the invalid count is not rejected up front:
whenever the source directory exists and is a directory the source
tree is enumerated first, and the failure only surfaces afterwards —
as the `ValueError` `random.sample` raises for N < 0, or as the
zero-successes check for N = 0. -/
theorem nonpositive_n_exits_one (w : World) (source_dir outDir cwd : ImagePath)
    (outDir0 : List String) (g0 : Nat) (a : Args) (hN : a.numImages ≤ 0) :
    (runMain w source_dir outDir cwd outDir0 g0 a).1.exitCode = 1 ∧
    (w.srcExists = true → w.srcIsDir = true →
      Ev.enumerate ∈ (runMain w source_dir outDir cwd outDir0 g0 a).2) := by
  unfold runMain
  cases hcol : collect_image_paths w source_dir defaultExts with
  | error e =>
    cases e with
    | notFound =>
      refine ⟨rfl, fun hex hdir => ?_⟩
      exfalso
      rcases collect_error_cases hcol with ⟨-, hfe⟩ | ⟨he, -⟩ | he
      · rw [hex] at hfe
        exact absurd hfe (by simp)
      · exact absurd he (by simp)
      · exact absurd he (by simp)
    | notADir =>
      refine ⟨rfl, fun hex hdir => ?_⟩
      exfalso
      rcases collect_error_cases hcol with ⟨he, -⟩ | ⟨-, hfe⟩ | he
      · exact absurd he (by simp)
      · rw [hdir] at hfe
        exact absurd hfe (by simp)
      · exact absurd he (by simp)
    | empty =>
      exact ⟨rfl, fun _ _ => by simp⟩
  | ok all_images =>
    have hne := collect_ok_nonempty hcol
    have hlen : 0 < all_images.length := List.length_pos.mpr hne
    have hnotle : ¬ ((all_images.length : Int) ≤ a.numImages) := by
      have h1 : (1 : Int) ≤ (all_images.length : Int) := by exact_mod_cast hlen
      omega
    by_cases hneg : a.numImages < 0
    · have hsamp : sample_images g0 all_images a.numImages a.seed =
          (.error .valueError, pySeed a.seed) := by
        unfold sample_images pySample
        rw [if_neg hnotle, if_pos (Or.inl hneg)]
      refine ⟨?_, fun _ _ => ?_⟩
      · simp only [hsamp]
      · simp [hsamp]
    · have h0 : a.numImages = 0 := by omega
      have hsamp : sample_images g0 all_images a.numImages a.seed =
          (.ok [], pySeed a.seed) := by
        unfold sample_images pySample
        rw [if_neg hnotle, h0]
        have hcond : ¬ ((0 : Int) < 0 ∨ (all_images.length : Int) < (0 : Int)) := by
          push_neg
          exact ⟨le_refl 0, Int.natCast_nonneg _⟩
        rw [if_neg hcond]
        rfl
      refine ⟨?_, fun _ _ => ?_⟩
      · simp only [hsamp]
        rfl
      · simp [hsamp]

/- ## C8 -/

/-- C8 counterexample: a SampleSet with a single item whose only element
fails to decode satisfies "exactly one item fails to decode and all
others succeed", yet the run exits with status 1 — the zero-successes
check fires — not 0. -/
theorem single_item_failure_exits_one_cx :
    loadW ["b"] = none ∧
    (mainTail loadW [] [["b"]] 644 392 95 ["", "c"] ["out"]).exitCode = 1 := by
  decide

/-- C8 amended: for every SampleSet of at least two items in which
exactly one item (the one at index `|A|`, with `A` the items before
it) fails to decode and every other item succeeds, the run ends with
exit status 0, the success counter is `|SampleSet| - 1` — so the
reported failure count is exactly 1 — the output directory afterwards
holds exactly `|SampleSet| - 1` calibration (`calib_*.jpg`) files
besides the manifest file, and the ordinal of the failed item appears
nowhere in the directory.  With a singleton SampleSet whose only item
fails, the same run instead exits 1. -/
theorem one_decode_failure_run (load : ImagePath → Option Img)
    (outDir0 : List String) (A C : List ImagePath) (pbad : ImagePath)
    (tw th q : Nat) (cwd outDir : ImagePath)
    (hA : ∀ p ∈ A, (load p).isSome) (hC : ∀ p ∈ C, (load p).isSome)
    (hbad : load pbad = none) (hlen : 2 ≤ (A ++ pbad :: C).length) :
    (mainTail load outDir0 (A ++ pbad :: C) tw th q cwd outDir).exitCode = 0 ∧
    (mainTail load outDir0 (A ++ pbad :: C) tw th q cwd outDir).successCount =
      (A ++ pbad :: C).length - 1 ∧
    (A ++ pbad :: C).length -
      (mainTail load outDir0 (A ++ pbad :: C) tw th q cwd outDir).successCount = 1 ∧
    ((mainTail load outDir0 (A ++ pbad :: C) tw th q cwd outDir).dirFiles.filter
      (fun n => decide (matchCalibGlob n))).length = (A ++ pbad :: C).length - 1 ∧
    fmtOrdinal A.length ∉
      (mainTail load outDir0 (A ++ pbad :: C) tw th q cwd outDir).dirFiles := by
  have htot : (A ++ pbad :: C).length = A.length + C.length + 1 := by
    simp only [List.length_append, List.length_cons]
    omega
  have hpos : 1 ≤ A.length + C.length := by omega
  have hsplit : processLoop load tw th q 0 (A ++ pbad :: C) =
      processLoop load tw th q 0 A ++
        processLoop load tw th q (A.length + 1) C := by
    rw [processLoop_append load tw th q 0 A (pbad :: C), Nat.zero_add,
      processLoop_skip load tw th q A.length pbad C hbad]
  have hnames : (processLoop load tw th q 0 (A ++ pbad :: C)).map Prod.fst =
      (List.range' 0 A.length).map fmtOrdinal ++
        (List.range' (A.length + 1) C.length).map fmtOrdinal := by
    rw [hsplit, List.map_append, processLoop_all_ok load tw th q 0 A hA,
      processLoop_all_ok load tw th q (A.length + 1) C hC]
  have hwlen : (processLoop load tw th q 0 (A ++ pbad :: C)).length =
      A.length + C.length := by
    rw [hsplit, List.length_append,
      processLoop_length_all_ok load tw th q 0 A hA,
      processLoop_length_all_ok load tw th q (A.length + 1) C hC]
  have hpr : process_images load outDir0 (A ++ pbad :: C) tw th q =
      (A.length + C.length,
        clearStale outDir0 ++
          ((List.range' 0 A.length).map fmtOrdinal ++
            (List.range' (A.length + 1) C.length).map fmtOrdinal)) := by
    simp only [process_images]
    rw [hnames, hwlen]
  have hfilter : ((clearStale outDir0 ++
      ((List.range' 0 A.length).map fmtOrdinal ++
        (List.range' (A.length + 1) C.length).map fmtOrdinal)).filter
      (fun n => decide (matchCalibGlob n))) =
      (List.range' 0 A.length).map fmtOrdinal ++
        (List.range' (A.length + 1) C.length).map fmtOrdinal := by
    rw [List.filter_append, clearStale_no_matches, List.nil_append]
    apply List.filter_eq_self.mpr
    intro n hn
    rcases List.mem_append.mp hn with hn | hn <;>
      · rcases List.mem_map.mp hn with ⟨j, _, rfl⟩
        exact decide_eq_true (matchCalibGlob_fmtOrdinal j)
  have hnflen : ((List.range' 0 A.length).map fmtOrdinal ++
      (List.range' (A.length + 1) C.length).map fmtOrdinal).length =
      A.length + C.length := by
    simp [List.length_append, List.length_map, List.length_range']
  have hsortne : ¬ ((sortNames ((List.range' 0 A.length).map fmtOrdinal ++
      (List.range' (A.length + 1) C.length).map fmtOrdinal)).isEmpty) := by
    intro hemp
    rw [List.isEmpty_iff] at hemp
    have hp := (List.perm_insertionSort strLe
      ((List.range' 0 A.length).map fmtOrdinal ++
        (List.range' (A.length + 1) C.length).map fmtOrdinal)).length_eq
    unfold sortNames at hemp
    rw [hemp] at hp
    rw [hnflen] at hp
    simp at hp
    omega
  have hgen : generate_image_list cwd outDir
      (clearStale outDir0 ++
        ((List.range' 0 A.length).map fmtOrdinal ++
          (List.range' (A.length + 1) C.length).map fmtOrdinal)) =
      some ((sortNames ((List.range' 0 A.length).map fmtOrdinal ++
        (List.range' (A.length + 1) C.length).map fmtOrdinal)).map (fun n =>
          renderPath (absolutePath cwd (outDir ++ [n])) ++ "\n")) := by
    simp only [generate_image_list]
    rw [hfilter, if_neg hsortne]
  have hmt : mainTail load outDir0 (A ++ pbad :: C) tw th q cwd outDir =
      ⟨0, (clearStale outDir0 ++
          ((List.range' 0 A.length).map fmtOrdinal ++
            (List.range' (A.length + 1) C.length).map fmtOrdinal)) ++ [manifestName],
        A.length + C.length,
        some ((sortNames ((List.range' 0 A.length).map fmtOrdinal ++
          (List.range' (A.length + 1) C.length).map fmtOrdinal)).map (fun n =>
            renderPath (absolutePath cwd (outDir ++ [n])) ++ "\n"))⟩ := by
    simp only [mainTail]
    rw [hpr]
    rw [if_neg (by omega : ¬ (A.length + C.length = 0))]
    rw [hgen]
  rw [hmt]
  refine ⟨rfl, ?_, ?_, ?_, ?_⟩
  · simp only []
    omega
  · simp only []
    omega
  · simp only []
    rw [List.filter_append, hfilter]
    have hman : (List.filter (fun n => decide (matchCalibGlob n)) [manifestName]) = [] := by
      simp [manifestName_not_calib]
    rw [hman, List.append_nil, hnflen]
    omega
  · simp only []
    intro hmem
    rcases List.mem_append.mp hmem with hmem | hmem
    · rcases List.mem_append.mp hmem with hmem | hmem
      · have hno := (clearStale_mem outDir0 (fmtOrdinal A.length)).mp hmem
        exact hno.2 (matchCalibGlob_fmtOrdinal A.length)
      · rcases List.mem_append.mp hmem with hmem | hmem
        · rcases List.mem_map.mp hmem with ⟨j, hj, hje⟩
          rcases List.mem_range'.mp hj with ⟨i, hi, hji⟩
          have := fmtOrdinal_inj hje
          omega
        · rcases List.mem_map.mp hmem with ⟨j, hj, hje⟩
          rcases List.mem_range'.mp hj with ⟨i, hi, hji⟩
          have := fmtOrdinal_inj hje
          omega
    · have heq := List.mem_singleton.mp hmem
      have hglob := matchCalibGlob_fmtOrdinal A.length
      rw [heq] at hglob
      exact manifestName_not_calib hglob

/-- Witness for C8's amended statement: a two-element SampleSet whose
second element fails to decode, on an output directory holding one
unrelated pre-existing file. -/
theorem one_decode_failure_run_witness :
    (mainTail loadW ["keep.txt"] ([["a"]] ++ ["b"] :: []) 644 392 95
      ["", "c"] ["out"]).exitCode = 0 ∧
    (mainTail loadW ["keep.txt"] ([["a"]] ++ ["b"] :: []) 644 392 95
      ["", "c"] ["out"]).successCount = ([["a"]] ++ ["b"] :: []).length - 1 ∧
    ([["a"]] ++ ["b"] :: []).length -
      (mainTail loadW ["keep.txt"] ([["a"]] ++ ["b"] :: []) 644 392 95
        ["", "c"] ["out"]).successCount = 1 ∧
    ((mainTail loadW ["keep.txt"] ([["a"]] ++ ["b"] :: []) 644 392 95
      ["", "c"] ["out"]).dirFiles.filter
        (fun n => decide (matchCalibGlob n))).length =
      ([["a"]] ++ ["b"] :: []).length - 1 ∧
    fmtOrdinal ([["a"]] : List ImagePath).length ∉
      (mainTail loadW ["keep.txt"] ([["a"]] ++ ["b"] :: []) 644 392 95
        ["", "c"] ["out"]).dirFiles :=
  one_decode_failure_run loadW ["keep.txt"] [["a"]] [] ["b"] 644 392 95
    ["", "c"] ["out"] (by decide) (by decide) (by decide) (by decide)

/-- Witness for C3's amended statement at a concrete negative request on
a valid one-image tree. -/
theorem nonpositive_n_exits_one_witness :
    (runMain wOne ["src"] ["out"] ["", "c"] [] 0
      ⟨-3, 644, 392, 95, 42⟩).1.exitCode = 1 ∧
    (wOne.srcExists = true → wOne.srcIsDir = true →
      Ev.enumerate ∈ (runMain wOne ["src"] ["out"] ["", "c"] [] 0
        ⟨-3, 644, 392, 95, 42⟩).2) :=
  nonpositive_n_exits_one wOne ["src"] ["out"] ["", "c"] [] 0
    ⟨-3, 644, 392, 95, 42⟩ (by decide)
